import Mathlib

/-!
Shallow embedding of `src/app/models/user.server.model.js` (trustroots):
validators, the user record, the pre-save hook, password hashing and
authentication, and the unique-username allocator.

External library primitives (`crypto.pbkdf2Sync`, `crypto.createHash('md5')`)
are modelled as abstract function parameters `pbkdf2 : String → String → String`
and `md5 : String → String`; both are deterministic functions, which is all
the proofs below rely on.
-/

namespace Trustroots

/-- `validateLocalStrategyProperty` from the source:
`(this.provider !== 'local' && !this.updated) || property.length`.
`updated : Bool` models presence of the `updated` Date field;
`property.length` is truthy iff the string is non-empty. -/
def validateLocalStrategyProperty (provider : String) (updated : Bool)
    (property : String) : Bool :=
  (decide (provider ≠ "local") && !updated) || decide (property.length ≠ 0)

/-- `validateLocalStrategyPassword` from the source:
`this.provider !== 'local' || (password && password.length >= 8)`. -/
def validateLocalStrategyPassword (provider : String) (password : String) : Bool :=
  decide (provider ≠ "local") || (decide (password ≠ "") && decide (8 ≤ password.length))

/-- Character class `[a-z0-9.\-_]` of `usernameRegex`. -/
def usernameCharOk (c : Char) : Bool :=
  (decide ('a' ≤ c) && decide (c ≤ 'z')) ||
  (decide ('0' ≤ c) && decide (c ≤ '9')) ||
  decide (c = '.') || decide (c = '-') || decide (c = '_')

/-- `usernameRegex = /^[a-z0-9.\-_]{3,32}$/` : anchored, so the whole string is
3 to 32 characters, each from the class. -/
def usernameRegexTest (s : String) : Bool :=
  decide (3 ≤ s.length) && decide (s.length ≤ 32) && s.toList.all usernameCharOk

/-- `dotsRegex = /^([^.]+\.?)$/` : anchored, so the whole string is one or more
non-dot characters followed by at most one dot.  Equivalently: the string is
non-empty, every character except possibly the last is not a dot, and if the
last character is a dot the preceding part is non-empty. -/
def dotsRegexTest (s : String) : Bool :=
  let cs := s.toList
  !cs.isEmpty &&
  cs.dropLast.all (fun c => decide (c ≠ '.')) &&
  (if (cs.getLast?).getD ' ' = '.' then !cs.dropLast.isEmpty else true)

/-- `illegalUsernames` from the source, verbatim (including the duplicated
entries and the `' demo'` entry with a leading space). -/
def illegalUsernames : List String :=
  ["trustroots", "trust", "roots", "re", "re:", "fwd", "fwd:", "reply",
   "admin", "administrator", "user", "password", "username", "unknown",
   "anonymous", "home", "signup", "signin", "edit", "settings", "password",
   "username", "user", " demo", "test"]

/-- `validateUsername` from the source.  JS parenthesisation:
`A || (username && regex && indexOf < 0) && dotsRegex`, i.e. `A || (B && C)`
since `&&` binds tighter than `||`.  `indexOf(username) < 0` holds iff the
username is not a member of the list; `username` as a condition is truthy iff
non-empty. -/
def validateUsername (provider : String) (username : String) : Bool :=
  decide (provider ≠ "local") ||
    (decide (username ≠ "") && usernameRegexTest username &&
      !(illegalUsernames.contains username)) &&
    dotsRegexTest username

/-- `true` iff the string contains the substring `".."` (two consecutive
dots). -/
def hasDotDot : List Char → Bool
  | [] => false
  | [_] => false
  | a :: b :: rest => (decide (a = '.') && decide (b = '.')) || hasDotDot (b :: rest)

/-- Modelled from the spec (the claimed acceptance condition for local-provider
usernames, to compare with the source's `validateUsername`): length in
`[3,32]`, charset `[a-z0-9._-]`, not in the reserved denylist, and no `".."`
substring. -/
def specUsernameOk (username : String) : Bool :=
  decide (3 ≤ username.length) && decide (username.length ≤ 32) &&
  username.toList.all usernameCharOk &&
  !(illegalUsernames.contains username) &&
  !(hasDotDot username.toList)

/-- JS `String.prototype.trim` (also mongoose's `trim` setter): strip leading
and trailing whitespace. -/
def jsTrim (s : String) : String :=
  String.mk
    (((s.toList.dropWhile Char.isWhitespace).reverse.dropWhile
      Char.isWhitespace).reverse)

/-- JS `String.prototype.toLowerCase` (also mongoose's `lowercase` setter):
lower-case every character. -/
def jsToLower (s : String) : String :=
  String.mk (s.toList.map Char.toLower)

/-- The user record, restricted to the fields the model's logic touches.
`Option String` models a field that may be absent (`undefined`); `updated`
models the presence of the `updated` Date field (the model never sets it
itself).  Schema defaults: `firstName`, `lastName`, `email`, `password`
default to `""`; `emailHash`, `salt`, `updated` are absent; `username` and
`provider` have no defaults (they are required). -/
structure User where
  firstName : String := ""
  lastName : String := ""
  email : String := ""
  username : String := ""
  password : String := ""
  emailHash : Option String := none
  salt : Option String := none
  provider : String := ""
  updated : Bool := false
  deriving DecidableEq, Repr

/-- `UserSchema.methods.hashPassword` from the source:
`if (this.salt && password) return pbkdf2Sync(password, this.salt, 10000, 64).toString('base64'); else return password`.
`this.salt` is truthy iff present and non-empty; `password` is truthy iff
non-empty.  `pbkdf2` abstracts `crypto.pbkdf2Sync(·, ·, 10000, 64)` plus the
base64 encoding. -/
def hashPassword (pbkdf2 : String → String → String) (u : User)
    (password : String) : String :=
  match u.salt with
  | some s => if s ≠ "" ∧ password ≠ "" then pbkdf2 password s else password
  | none => password

/-- `UserSchema.methods.authenticate` from the source:
`this.password === this.hashPassword(password)`. -/
def authenticate (pbkdf2 : String → String → String) (u : User)
    (password : String) : Bool :=
  u.password == hashPassword pbkdf2 u password

/-- `UserSchema.pre('save')` from the source.  `newSalt` abstracts the fresh
`crypto.randomBytes(16)` value (always non-empty in the source); `md5`
abstracts `crypto.createHash('md5').update(·).digest('hex')`.
The hook: if `this.password && this.password.length > 6`, set
`this.salt = newSalt` and then `this.password = this.hashPassword(this.password)`
(with the new salt already in place); in every case recompute
`this.emailHash = md5 of the trimmed, lower-cased email`. -/
def preSave (pbkdf2 : String → String → String) (md5 : String → String)
    (newSalt : String) (u : User) : User :=
  let u1 :=
    if u.password ≠ "" ∧ 6 < u.password.length then
      let u' : User := { u with salt := some newSalt }
      { u' with password := hashPassword pbkdf2 u' u'.password }
    else u
  { u1 with emailHash := some (md5 (jsToLower (jsTrim u1.email))) }

/-- Rendering of the allocator's suffix: `username + (suffix || '')`, where an
absent suffix contributes the empty string and a numeric suffix its decimal
representation. -/
def suffixStr : Option Nat → String
  | none => ""
  | some n => toString n

/-- `UserSchema.statics.findUniqueUsername` from the source, with the storage
lookup abstracted as `lookup : String → Except Unit Bool` (`.error ()` models
`findOne` reporting an error, `.ok b` models success with `b` = a record with
that username exists).  `fuel` bounds the recursion depth: the outer `none`
means the bound was exhausted, `some none` models `callback(null)` (storage
error), `some (some s)` models `callback(s)`.  On a hit the source recurses
with `(suffix || 0) + 1`. -/
def findUniqueUsername (lookup : String → Except Unit Bool) (username : String)
    (suffix : Option Nat) : Nat → Option (Option String)
  | 0 => none
  | fuel + 1 =>
    let possibleUsername := username ++ suffixStr suffix
    match lookup possibleUsername with
    | .error _ => some none
    | .ok true =>
        findUniqueUsername lookup username (some ((suffix.getD 0) + 1)) fuel
    | .ok false => some (some possibleUsername)

/-- An error-free storage state: `findOne` succeeds, and a record with the
given username exists iff the name is in `taken`. -/
def dbLookup (taken : List String) : String → Except Unit Bool :=
  fun s => Except.ok (decide (s ∈ taken))

/-- The schema `match` validator on `email`, `/.+\@.+\..+/` (unanchored, so it
tests for containment): some position `i ≥ 1` holds `'@'` and some position
`j ≥ i + 2` with at least one character after it holds `'.'` (the `.`
wildcards are matched by arbitrary characters). -/
def emailMatches (s : String) : Bool :=
  let cs := s.toList
  (List.range cs.length).any fun i =>
    (List.range cs.length).any fun j =>
      decide (1 ≤ i) && decide (i + 2 ≤ j) && decide (j + 2 ≤ cs.length) &&
      decide (cs.getD i ' ' = '@') && decide (cs.getD j ' ' = '.')

/-- The schema's validation of a user document: the `validate` entries on
`firstName`, `lastName`, `email`, `username` and `password`, the `match` on
`email` (mongoose's `match` passes on an empty string), and the `required`
markers on `username` and `provider`. -/
def userValid (u : User) : Bool :=
  validateLocalStrategyProperty u.provider u.updated u.firstName &&
  validateLocalStrategyProperty u.provider u.updated u.lastName &&
  validateLocalStrategyProperty u.provider u.updated u.email &&
  (decide (u.email = "") || emailMatches u.email) &&
  decide (u.username ≠ "") &&
  validateUsername u.provider u.username &&
  validateLocalStrategyPassword u.provider u.password &&
  decide (u.provider ≠ "")

/-- The salt/hash invariant claimed by the spec: the salt is present iff the
password field holds a hash derived (by `pbkdf2`) with that matching salt. -/
def hashSaltConsistent (pbkdf2 : String → String → String) (u : User) : Prop :=
  match u.salt with
  | none => ∀ p s, u.password ≠ pbkdf2 p s
  | some s => ∃ p, u.password = pbkdf2 p s

/-- The records reachable through the model's operations: creation with the
schema defaults (plus the required `username` and `provider`), updates of the
user-settable fields (`salt` and `emailHash` are never taken from user input;
mongoose's `trim`/`lowercase` setters on `email` and `username` are applied on
assignment; `updated` is stamped by callers of the model), and saves of valid
documents, which run the pre-save hook with a fresh non-empty salt. -/
inductive Reachable (pbkdf2 : String → String → String) (md5 : String → String) :
    User → Prop
  | create (username provider : String) :
      Reachable pbkdf2 md5
        { username := jsToLower (jsTrim username), provider := provider }
  | setFirstName (u : User) (v : String) :
      Reachable pbkdf2 md5 u → Reachable pbkdf2 md5 { u with firstName := jsTrim v }
  | setLastName (u : User) (v : String) :
      Reachable pbkdf2 md5 u → Reachable pbkdf2 md5 { u with lastName := jsTrim v }
  | setEmail (u : User) (v : String) :
      Reachable pbkdf2 md5 u →
      Reachable pbkdf2 md5 { u with email := jsToLower (jsTrim v) }
  | setUsername (u : User) (v : String) :
      Reachable pbkdf2 md5 u →
      Reachable pbkdf2 md5 { u with username := jsToLower (jsTrim v) }
  | setPassword (u : User) (v : String) :
      Reachable pbkdf2 md5 u → Reachable pbkdf2 md5 { u with password := v }
  | setProvider (u : User) (v : String) :
      Reachable pbkdf2 md5 u → Reachable pbkdf2 md5 { u with provider := v }
  | setUpdated (u : User) :
      Reachable pbkdf2 md5 u → Reachable pbkdf2 md5 { u with updated := true }
  | save (u : User) (newSalt : String) :
      newSalt ≠ "" → userValid u = true → Reachable pbkdf2 md5 u →
      Reachable pbkdf2 md5 (preSave pbkdf2 md5 newSalt u)

/-- Modelled from the spec (the claimed behaviour of
`validateLocalStrategyProperty`, to compare with the source's): passes iff the
provider is non-local and the record has been saved before (`updated` set), or
the value is non-empty. -/
def specLocalPropertyOk (provider : String) (updated : Bool)
    (value : String) : Prop :=
  (provider ≠ "local" ∧ updated = true) ∨ value ≠ ""

instance (provider : String) (updated : Bool) (value : String) :
    Decidable (specLocalPropertyOk provider updated value) := by
  unfold specLocalPropertyOk; infer_instance

/-- Concrete stand-in for the key-derivation parameter, used to evaluate the
abstract statements at concrete inputs. -/
def pbkdf2c (p s : String) : String := "$" ++ p ++ ":" ++ s

/-- Concrete stand-in for the md5 parameter. -/
def md5c (s : String) : String := "#" ++ s

lemma string_length_ne_zero_iff (s : String) : s.length ≠ 0 ↔ s ≠ "" := by
  obtain ⟨data⟩ := s
  cases data <;> simp [String.length, String.ext_iff]

lemma ne_empty_of_six_lt (s : String) (h : 6 < s.length) : s ≠ "" := by
  intro he
  rw [he] at h
  exact absurd h (by decide)

/-- The pre-save hook on a record whose password is longer than 6 characters:
a fresh salt and the derived hash are stored, and the email hash is
recomputed. -/
lemma preSave_hash_eq (pbkdf2 : String → String → String) (md5 : String → String)
    (newSalt : String) (u : User) (hs : newSalt ≠ "") (h : 6 < u.password.length) :
    preSave pbkdf2 md5 newSalt u =
      { u with salt := some newSalt, password := pbkdf2 u.password newSalt,
               emailHash := some (md5 (jsToLower (jsTrim u.email))) } := by
  have hne := ne_empty_of_six_lt u.password h
  simp only [preSave]
  rw [if_pos ⟨hne, h⟩]
  simp [hashPassword, hs, hne]

/-- The pre-save hook on a record whose password has at most 6 characters:
only the email hash is recomputed. -/
lemma preSave_skip_eq (pbkdf2 : String → String → String) (md5 : String → String)
    (newSalt : String) (u : User) (h : u.password.length ≤ 6) :
    preSave pbkdf2 md5 newSalt u =
      { u with emailHash := some (md5 (jsToLower (jsTrim u.email))) } := by
  simp only [preSave]
  rw [if_neg (fun hc => absurd hc.2 (by omega))]

/-- C1: the claim says `validateUsername` (for a local provider) accepts
exactly the names of length 3–32 over `[a-z0-9._-]` that are not reserved and
contain no `".."`, and in particular accepts `"a.b"`.  The source's
`dotsRegex` `/^([^.]+\.?)$/` instead only accepts names whose sole dot, if
any, is the final character, so the code rejects `"a.b"` even though the
claimed condition (`specUsernameOk`) holds for it — contradicting the code's
own comment (`no consecutive dots: "." ok, ".." nope`, `strpos(username,
'..') === false`) and its error message.  The other claimed examples agree
with the code: `"ab"`, `"a..b"` and `"admin"` are rejected. -/
theorem validateUsername_dot_divergence :
    specUsernameOk "a.b" = true ∧ validateUsername "local" "a.b" = false ∧
    validateUsername "local" "ab" = false ∧
    validateUsername "local" "a..b" = false ∧
    validateUsername "local" "admin" = false := by decide

/-- C5 counterexample: the claim says `validateLocalStrategyProperty` passes
iff (provider is non-local and `updated` IS set) or the value is non-empty.
The source has `!this.updated`: at provider `"github"`, `updated` set and an
empty value, the code fails the validator while the claimed condition holds. -/
theorem validateLocalStrategyProperty_claim_false :
    ¬ (validateLocalStrategyProperty "github" true "" = true ↔
        specLocalPropertyOk "github" true "") := by decide

/-- C5 amended: `validateLocalStrategyProperty` passes iff (provider is not
`'local'` and `updated` is UNSET) or the value is non-empty; this validator is
the one attached to `firstName`, `lastName` and `email`. -/
theorem validateLocalStrategyProperty_spec (provider : String) (updated : Bool)
    (value : String) :
    validateLocalStrategyProperty provider updated value = true ↔
      ((provider ≠ "local" ∧ updated = false) ∨ value ≠ "") := by
  cases updated <;>
    simp [validateLocalStrategyProperty, string_length_ne_zero_iff]

/-- C6: for a non-local provider, the validator attached to `firstName`,
`lastName` and `email` accepts the empty value while `updated` is unset
(brand-new record) and rejects it once `updated` is set. -/
theorem validateLocalStrategyProperty_nonlocal_empty (provider : String)
    (h : provider ≠ "local") :
    validateLocalStrategyProperty provider false "" = true ∧
    validateLocalStrategyProperty provider true "" = false := by
  simp [validateLocalStrategyProperty, h]

/-- C6 witness at provider `"github"`. -/
theorem validateLocalStrategyProperty_nonlocal_empty_witness :
    validateLocalStrategyProperty "github" false "" = true ∧
    validateLocalStrategyProperty "github" true "" = false :=
  validateLocalStrategyProperty_nonlocal_empty "github" (by decide)

/-- C10: when the salt is absent, and also whenever the candidate is the empty
string, `hashPassword` returns the candidate unchanged, so `authenticate`
degenerates to plain string equality against the stored password field; in
particular a record with no salt and an empty password field authenticates the
empty candidate. -/
theorem hashPassword_passthrough (pbkdf2 : String → String → String) (u : User)
    (c : String) :
    (u.salt = none → hashPassword pbkdf2 u c = c) ∧
    (hashPassword pbkdf2 u "" = "") ∧
    ((u.salt = none ∨ c = "") → (authenticate pbkdf2 u c = true ↔ u.password = c)) ∧
    (u.salt = none → u.password = "" → authenticate pbkdf2 u "" = true) := by
  refine ⟨fun h => by simp [hashPassword, h], ?_, ?_, ?_⟩
  · cases hs : u.salt <;> simp [hashPassword, hs]
  · rintro (h | rfl)
    · simp [authenticate, hashPassword, h]
    · cases hs : u.salt <;> simp [authenticate, hashPassword, hs]
  · intro h hpw
    cases hs : u.salt <;> simp_all [authenticate, hashPassword]

/-- C10 witness: a record with no salt and empty password authenticates the
empty candidate, and `hashPassword` passes a candidate through unchanged. -/
theorem hashPassword_passthrough_witness :
    hashPassword pbkdf2c { } "xyz" = "xyz" ∧
    authenticate pbkdf2c { } "" = true :=
  ⟨(hashPassword_passthrough pbkdf2c { } "xyz").1 rfl,
   (hashPassword_passthrough pbkdf2c { } "xyz").2.2.2 rfl rfl⟩

/-- C3: on save, a raw password longer than 6 characters causes the hook to
store the fresh salt (replacing any prior salt) and replace the password field
with the derived hash; a password of length ≤ 6 (the empty password included)
leaves both the password and the salt fields unchanged. -/
theorem preSave_password_spec (pbkdf2 : String → String → String)
    (md5 : String → String) (newSalt : String) (u : User) (hs : newSalt ≠ "") :
    (6 < u.password.length →
      (preSave pbkdf2 md5 newSalt u).salt = some newSalt ∧
      (preSave pbkdf2 md5 newSalt u).password = pbkdf2 u.password newSalt) ∧
    (u.password.length ≤ 6 →
      (preSave pbkdf2 md5 newSalt u).salt = u.salt ∧
      (preSave pbkdf2 md5 newSalt u).password = u.password) := by
  constructor
  · intro h
    rw [preSave_hash_eq pbkdf2 md5 newSalt u hs h]
    exact ⟨rfl, rfl⟩
  · intro h
    rw [preSave_skip_eq pbkdf2 md5 newSalt u h]
    exact ⟨rfl, rfl⟩

/-- C3 witness: a 8-character password is hashed with the fresh salt, a
3-character one is left alone together with the (absent) salt. -/
theorem preSave_password_spec_witness :
    ((preSave pbkdf2c md5c "SALT" { password := "longpass" }).salt = some "SALT" ∧
     (preSave pbkdf2c md5c "SALT" { password := "longpass" }).password =
       pbkdf2c "longpass" "SALT") ∧
    ((preSave pbkdf2c md5c "SALT" { password := "abc" }).salt = none ∧
     (preSave pbkdf2c md5c "SALT" { password := "abc" }).password = "abc") :=
  ⟨(preSave_password_spec pbkdf2c md5c "SALT" { password := "longpass" }
      (by decide)).1 (by decide),
   (preSave_password_spec pbkdf2c md5c "SALT" { password := "abc" }
      (by decide)).2 (by decide)⟩

/-- C7: round-trip — saving a record whose password field holds a raw password
longer than 6 characters and then authenticating with that same raw value
succeeds, because the key derivation is a deterministic function of password
and salt. -/
theorem authenticate_roundtrip (pbkdf2 : String → String → String)
    (md5 : String → String) (newSalt : String) (u : User) (hs : newSalt ≠ "")
    (h : 6 < u.password.length) :
    authenticate pbkdf2 (preSave pbkdf2 md5 newSalt u) u.password = true := by
  rw [preSave_hash_eq pbkdf2 md5 newSalt u hs h]
  simp [authenticate, hashPassword, hs, ne_empty_of_six_lt u.password h]

/-- C7 witness at the spec's example password `"correcthorsebattery"`. -/
theorem authenticate_roundtrip_witness :
    authenticate pbkdf2c
      (preSave pbkdf2c md5c "SALT" { password := "correcthorsebattery" })
      "correcthorsebattery" = true :=
  authenticate_roundtrip pbkdf2c md5c "SALT" { password := "correcthorsebattery" }
    (by decide) (by decide)

/-- C8: on every save the hook overwrites `emailHash` with the digest of the
trimmed, lower-cased email — whatever `emailHash` previously held — so saving
with email `"User@Example.com "` and with `"user@example.com"` produces the
same `emailHash`. -/
theorem preSave_emailHash_spec (pbkdf2 : String → String → String)
    (md5 : String → String) (newSalt : String) (u v : User)
    (hu : u.email = "User@Example.com ") (hv : v.email = "user@example.com") :
    (∀ w : User, (preSave pbkdf2 md5 newSalt w).emailHash =
      some (md5 (jsToLower (jsTrim w.email)))) ∧
    (preSave pbkdf2 md5 newSalt u).emailHash =
      (preSave pbkdf2 md5 newSalt v).emailHash := by
  have hall : ∀ w : User, (preSave pbkdf2 md5 newSalt w).emailHash =
      some (md5 (jsToLower (jsTrim w.email))) := by
    intro w
    by_cases hc : w.password ≠ "" ∧ 6 < w.password.length <;> simp [preSave, hc]
  refine ⟨hall, ?_⟩
  rw [hall u, hall v, hu, hv,
    show jsToLower (jsTrim "User@Example.com ") = "user@example.com" from by decide,
    show jsToLower (jsTrim "user@example.com") = "user@example.com" from by decide]

/-- C8 witness at two concrete records differing only in the spelling of the
email. -/
theorem preSave_emailHash_spec_witness :
    (preSave pbkdf2c md5c "SALT" { email := "User@Example.com " }).emailHash =
      (preSave pbkdf2c md5c "SALT" { email := "user@example.com" }).emailHash :=
  (preSave_emailHash_spec pbkdf2c md5c "SALT"
    { email := "User@Example.com " } { email := "user@example.com" } rfl rfl).2

/-- The allocator started at numeric suffix `k` against error-free storage:
if every probe from `k` up to (but excluding) `n` is taken and `base ++ n` is
free, it returns `base ++ n`, given at least `n - k + 1` units of fuel. -/
lemma findUniqueUsername_from (taken : List String) (base : String) (n : Nat)
    (hfree : base ++ toString n ∉ taken) :
    ∀ fuel k, 1 ≤ k → k ≤ n →
      (∀ j, k ≤ j → j < n → base ++ toString j ∈ taken) →
      n - k + 1 ≤ fuel →
      findUniqueUsername (dbLookup taken) base (some k) fuel =
        some (some (base ++ toString n)) := by
  intro fuel
  induction fuel with
  | zero => intro k _ _ _ h4; omega
  | succ fuel ih =>
    intro k h1 h2 htaken hfuel
    by_cases hk : k = n
    · subst hk
      simp [findUniqueUsername, dbLookup, suffixStr, hfree]
    · have hkn : k < n := lt_of_le_of_ne h2 hk
      have hmem : base ++ toString k ∈ taken := htaken k le_rfl hkn
      simp only [findUniqueUsername, dbLookup, suffixStr, hmem, decide_True,
        Option.getD_some]
      exact ih (k + 1) (by omega) hkn
        (fun j hj1 hj2 => htaken j (by omega) hj2) (by omega)

/-- C2: against error-free storage, `findUniqueUsername(base)` (suffix absent)
returns `base` itself when `base` is not taken, and otherwise returns
`base ++ n` for the smallest positive `n` whose candidate is free, probing the
suffixes in order none, 1, 2, 3, …. -/
theorem findUniqueUsername_spec (taken : List String) (base : String) :
    (base ∉ taken → ∀ fuel, 1 ≤ fuel →
      findUniqueUsername (dbLookup taken) base none fuel = some (some base)) ∧
    (∀ n, base ∈ taken → 1 ≤ n → base ++ toString n ∉ taken →
      (∀ k, 1 ≤ k → k < n → base ++ toString k ∈ taken) →
      ∀ fuel, n + 2 ≤ fuel →
      findUniqueUsername (dbLookup taken) base none fuel =
        some (some (base ++ toString n))) := by
  constructor
  · intro hfree fuel hfuel
    obtain ⟨f, rfl⟩ : ∃ f, fuel = f + 1 := ⟨fuel - 1, by omega⟩
    simp [findUniqueUsername, dbLookup, suffixStr, hfree]
  · intro n hmem hn hfree htaken fuel hfuel
    obtain ⟨f, rfl⟩ : ∃ f, fuel = f + 1 := ⟨fuel - 1, by omega⟩
    have h1 : findUniqueUsername (dbLookup taken) base none (f + 1) =
        findUniqueUsername (dbLookup taken) base (some 1) f := by
      simp [findUniqueUsername, dbLookup, suffixStr, hmem]
    rw [h1]
    exact findUniqueUsername_from taken base n hfree f 1 le_rfl hn
      (fun j hj1 hj2 => htaken j hj1 hj2) (by omega)

/-- C2 witness: the spec's two allocator scenarios, with
`{"alice","alice1","alice2"}` taken, and with no conflicting names. -/
theorem findUniqueUsername_spec_witness :
    findUniqueUsername (dbLookup ["alice", "alice1", "alice2"]) "alice" none 5 =
      some (some "alice3") ∧
    findUniqueUsername (dbLookup ["carol"]) "bob" none 1 = some (some "bob") :=
  ⟨(findUniqueUsername_spec ["alice", "alice1", "alice2"] "alice").2 3
      (by decide) (by decide) (by decide)
      (fun k h1 h2 => by interval_cases k <;> decide) 5 (by decide),
   (findUniqueUsername_spec ["carol"] "bob").1 (by decide) 1 (by decide)⟩

/-- C9: whenever the storage lookup reports an error on the probed candidate,
the allocator invokes its callback with `null` (modelled `some none`) instead
of crashing or producing a candidate — for every base name and suffix. -/
theorem findUniqueUsername_storage_error (lookup : String → Except Unit Bool)
    (username : String) (suffix : Option Nat) (fuel : Nat)
    (h : lookup (username ++ suffixStr suffix) = .error ()) :
    findUniqueUsername lookup username suffix (fuel + 1) = some none := by
  simp [findUniqueUsername, h]

/-- C9 witness: storage that always errors makes the allocator yield `null`. -/
theorem findUniqueUsername_storage_error_witness :
    findUniqueUsername (fun _ => Except.error ()) "bob" none 1 = some none :=
  findUniqueUsername_storage_error (fun _ => Except.error ()) "bob" none 0 rfl

/-- Degenerate concrete instantiation of the key-derivation parameter (every
derived hash is this fixed 16-character string), used to exhibit a reachable
record whose password field cannot be any derived hash. -/
def constKdf (_p _s : String) : String := "0123456789abcdef"

/-- A record reachable through the model's operations (see
`reachable_salt_inconsistent`): created non-local, saved once with the
password `"longpass1"` (installing salt `"s0"` and the derived hash), then
updated to the raw password `"abc"` and saved again — the second save leaves
the stale salt next to the raw password. -/
def badUser : User :=
  { username := "bob", password := "abc", emailHash := some (md5c ""),
    salt := some "s0", provider := "github" }

/-- C4 counterexample: the claimed invariant — the salt is present iff the
password field holds a (matching) derived hash — fails on a reachable record:
save a long password (salt and hash stored), then set the short non-empty
password `"abc"` and save again (the document stays valid since the provider
is non-local); the hook skips the hashing step, leaving salt `"s0"` alongside
the raw password `"abc"`, which is not a derived hash. -/
theorem reachable_salt_inconsistent :
    Reachable constKdf md5c badUser ∧ ¬ hashSaltConsistent constKdf badUser := by
  constructor
  · have r0 := @Reachable.create constKdf md5c "bob" "github"
    rw [show jsToLower (jsTrim "bob") = "bob" from by decide] at r0
    have r1 := @Reachable.setPassword constKdf md5c _ "longpass1" r0
    have r1' : Reachable constKdf md5c
        { username := "bob", provider := "github", password := "longpass1" } := r1
    have r2 := @Reachable.save constKdf md5c _ "s0" (by decide) (by decide) r1'
    rw [show preSave constKdf md5c "s0"
        { username := "bob", provider := "github", password := "longpass1" } =
        { username := "bob", provider := "github",
          password := "0123456789abcdef", salt := some "s0",
          emailHash := some (md5c "") } from by decide] at r2
    have r3 := @Reachable.setPassword constKdf md5c _ "abc" r2
    have r3' : Reachable constKdf md5c
        { username := "bob", provider := "github", password := "abc",
          salt := some "s0", emailHash := some (md5c "") } := r3
    have r4 := @Reachable.save constKdf md5c _ "s1" (by decide) (by decide) r3'
    rw [show preSave constKdf md5c "s1"
        { username := "bob", provider := "github", password := "abc",
          salt := some "s0", emailHash := some (md5c "") } = badUser
      from by decide] at r4
    exact r4
  · intro hcon
    have hcon' : ∃ p, badUser.password = constKdf p "s0" := hcon
    obtain ⟨p, hp⟩ := hcon'
    simp [constKdf, badUser] at hp

/-- C4 amended: one direction of the invariant survives — a derived hash is
never stored without its matching salt: whenever the hook hashes (password
longer than 6 characters) it installs the fresh salt and the hash derived with
exactly that salt, and every salt a reachable record carries is such a
non-empty fresh value.  The converse direction is refuted by
`reachable_salt_inconsistent`: a present salt does not imply the password
field holds a hash. -/
theorem reachable_salt_spec (pbkdf2 : String → String → String)
    (md5 : String → String) (u : User) (h : Reachable pbkdf2 md5 u) :
    (∀ s, u.salt = some s → s ≠ "") ∧
    (∀ newSalt, newSalt ≠ "" → 6 < u.password.length →
      (preSave pbkdf2 md5 newSalt u).salt = some newSalt ∧
      (preSave pbkdf2 md5 newSalt u).password = pbkdf2 u.password newSalt) := by
  constructor
  · induction h with
    | create username provider => exact fun s hs => Option.noConfusion hs
    | setFirstName u v _ ih => exact ih
    | setLastName u v _ ih => exact ih
    | setEmail u v _ ih => exact ih
    | setUsername u v _ ih => exact ih
    | setPassword u v _ ih => exact ih
    | setProvider u v _ ih => exact ih
    | setUpdated u _ ih => exact ih
    | save u newSalt hns hv hr ih =>
      intro s hs
      by_cases hlen : 6 < u.password.length
      · rw [preSave_hash_eq pbkdf2 md5 newSalt u hns hlen] at hs
        obtain rfl : newSalt = s := by simpa using hs
        exact hns
      · rw [preSave_skip_eq pbkdf2 md5 newSalt u (by omega)] at hs
        exact ih s hs
  · intro newSalt hns hlen
    rw [preSave_hash_eq pbkdf2 md5 newSalt u hns hlen]
    exact ⟨rfl, rfl⟩

/-- C4 amended witness: a concrete reachable record with a long password,
saved with a concrete fresh salt. -/
theorem reachable_salt_spec_witness :
    (preSave pbkdf2c md5c "SALT"
        { username := "bob", provider := "github", password := "longpass" }).salt =
      some "SALT" ∧
    (preSave pbkdf2c md5c "SALT"
        { username := "bob", provider := "github", password := "longpass" }).password =
      pbkdf2c "longpass" "SALT" := by
  have r0 := @Reachable.create pbkdf2c md5c "bob" "github"
  rw [show jsToLower (jsTrim "bob") = "bob" from by decide] at r0
  have r1 : Reachable pbkdf2c md5c
      { username := "bob", provider := "github", password := "longpass" } :=
    @Reachable.setPassword pbkdf2c md5c _ "longpass" r0
  exact (reachable_salt_spec pbkdf2c md5c _ r1).2 "SALT" (by decide) (by decide)

end Trustroots
